import Mathlib

/-!
# Verification of `build_dataset_obama.py`

A shallow embedding of the dataset-preparation script
`milestone_content/build_dataset_obama.py` and proofs about its observable
behaviour: the train/dev/test splitter in the `__main__` block, the border
trimmer `trim`, and the per-file pipeline `deborder_and_save`.

Filenames are modelled as `List Char` (Python `str`), images as a mode, a
size and a per-pixel channel list, and the process-wide random generator as
an abstract state threaded through the Fisher–Yates loop of
`random.shuffle`.
-/

namespace BuildDataset

/-- A Python `str`, as a list of its characters. -/
abbrev Filename := List Char

/-- Python `os.path.join(data_dir, f)` for a relative component `f`:
`data_dir + "/" + f`. -/
def pathJoin (dataDir f : Filename) : Filename := dataDir ++ '/' :: f

/-- Python `f.endswith(".png")`. -/
def endsWithPng (f : Filename) : Bool := ".png".data.isSuffixOf f

/-- The comprehension `[os.path.join(data_dir, f) for f in filenames if f.endswith('.png')]`,
applied to the `os.listdir(data_dir)` result `listing`. -/
def pngPaths (dataDir : Filename) (listing : List Filename) : List Filename :=
  (listing.filter endsWithPng).map (pathJoin dataDir)

/-- Python `filenames.sort()`.  Python sorts strings lexicographically by code
point, which is exactly the `LinearOrder` on `List Char`; the result of any
correct comparison sort is the unique `≤`-sorted permutation of the input,
so a verified insertion sort is an exact model of `list.sort()`. -/
def pySort (l : List Filename) : List Filename := l.insertionSort (· ≤ ·)

/-- The swap `x[i], x[j] = x[j], x[i]` performed by one iteration of the
`random.shuffle` loop (identity when an index is out of range, which the
loop never produces). -/
def swapAt (l : List α) (i j : Nat) : List α :=
  match l[i]?, l[j]? with
  | some a, some b => (l.set i b).set j a
  | _, _ => l

/-- The loop of `random.shuffle(x)`:
`for i in reversed(range(1, len(x))): j = _randbelow(i+1); x[i], x[j] = x[j], x[i]`.
`next bound st` models `_randbelow(bound)` together with the successor RNG
state; the drawn value is reduced `mod bound`, which is `_randbelow`'s
contract (a value in `[0, bound)`). -/
def shuffleAux (next : Nat → σ → Nat × σ) : Nat → σ → List α → List α
  | 0, _, l => l
  | i + 1, st, l =>
    let p := next (i + 2) st
    shuffleAux next i p.2 (swapAt l (i + 1) (p.1 % (i + 2)))

/-- Python `random.shuffle(x)` for a list of length `n`: the loop above starting at
`i = n - 1`. -/
def pyShuffle (next : Nat → σ → Nat × σ) (st : σ) (l : List α) : List α :=
  shuffleAux next (l.length - 1) st l

/-- The main block (`__main__`) of the script, up to the `filenames` dictionary:
filter to `.png`, join with `data_dir`, `sort()`, seeded `shuffle()`, then
`split1 = int(0.8 * len(filenames))`, `split2 = int(0.9 * len(filenames))`
and the three slices `[:split1]`, `[split1:split2]`, `[split2:]`.

`int(0.8 * n)` and `int(0.9 * n)` are embedded as the exact floors
`8 * n / 10` and `9 * n / 10`: the doubles `0.8` and `0.9` are stored
slightly above the rationals 4/5 and 9/10, so for every feasible `n` the
float product truncates to the exact floor. -/
def buildSplit (next : Nat → σ → Nat × σ) (st : σ) (dataDir : Filename)
    (listing : List Filename) : List Filename × List Filename × List Filename :=
  let filenames := pyShuffle next st (pySort (pngPaths dataDir listing))
  let split1 := 8 * filenames.length / 10
  let split2 := 9 * filenames.length / 10
  (filenames.take split1, (filenames.drop split1).take (split2 - split1),
    filenames.drop split2)

/-- The three split names, in the fixed order the script iterates them. -/
inductive Split | train | dev | test
deriving DecidableEq

/-- Which split a filename `f` is assigned to by the computed partition
(`none` when `f` is not an input file). -/
def splitAssignment (next : Nat → σ → Nat × σ) (st : σ) (dataDir : Filename)
    (listing : List Filename) (f : Filename) : Option Split :=
  let t := buildSplit next st dataDir listing
  if f ∈ t.1 then some .train
  else if f ∈ t.2.1 then some .dev
  else if f ∈ t.2.2 then some .test
  else none

/-- A concrete RNG instance used to evaluate the splitter on closed inputs:
any function of the right shape is a valid instantiation of the abstract
generator. -/
def demoNext : Nat → Nat → Nat × Nat := fun bound st => (st % bound, 5 * st + 1)

/-! ## Images

PIL images: a color mode, a size and per-pixel channel data.  Channel data
is a list of 8-bit channel values (e.g. `[r, g, b, a]` for mode RGBA); only
coordinates `x < width`, `y < height` are meaningful. -/

/-- The PIL color modes that occur in this pipeline. -/
inductive Mode | RGB | RGBA | L
deriving DecidableEq

/-- The number of bands of a mode (`len(image.split())`). -/
def Mode.bands : Mode → Nat
  | .RGB => 3
  | .RGBA => 4
  | .L => 1

/-- An in-memory raster image. -/
structure Image where
  mode : Mode
  width : Nat
  height : Nat
  px : Nat → Nat → List Nat

/-- PIL `Image.new(mode, size, color)`: a uniform image filled with `color`. -/
def Image.new (mode : Mode) (size : Nat × Nat) (color : List Nat) : Image :=
  { mode := mode, width := size.1, height := size.2, px := fun _ _ => color }

/-- PIL `ImageChops.difference(im1, im2)`: the per-channel absolute difference
(both arguments always have the same mode and size here). -/
def difference (im1 im2 : Image) : Image :=
  { mode := im1.mode, width := im1.width, height := im1.height,
    px := fun x y =>
      List.zipWith (fun a b => max a b - min a b) (im1.px x y) (im2.px x y) }

/-- Clip a signed channel value into the 8-bit range, as PIL's `CLIP8`. -/
def clip8 (n : Int) : Nat := (max 0 (min 255 n)).toNat

/-- PIL `ImageChops.add(im, im, 2.0, offset)`: per channel
`clip8((c1 + c2) / scale + offset)` with `im1 = im2 = im` and `scale = 2.0`.
Because the two operands are the same image the float quotient
`(c + c) / 2.0` is the exact integer `c`, so integer division is an exact
embedding of the float evaluation. -/
def chopsAddSelf2 (im : Image) (offset : Int) : Image :=
  { im with px := fun x y =>
      (im.px x y).map (fun c => clip8 (((c + c : Nat) : Int) / 2 + offset)) }

/-- All pixel coordinates of an image, row-major. -/
def Image.coords (im : Image) : List (Nat × Nat) :=
  (List.range im.height).flatMap (fun y => (List.range im.width).map (fun x => (x, y)))

/-- Whether some channel of the pixel at `p` is non-zero. -/
def pxNonzero (im : Image) (p : Nat × Nat) : Bool :=
  (im.px p.1 p.2).any (fun c => c != 0)

/-- The bounding box `(left, upper, right, lower)` of a set of coordinates:
`right` and `lower` are exclusive, as in PIL. -/
def bboxOf : List (Nat × Nat) → Option (Nat × Nat × Nat × Nat)
  | [] => none
  | p :: ps =>
    some ((ps.map Prod.fst).foldr min p.1, (ps.map Prod.snd).foldr min p.2,
      (ps.map Prod.fst).foldr max p.1 + 1, (ps.map Prod.snd).foldr max p.2 + 1)

/-- PIL `image.getbbox()`: the bounding box of the non-zero regions, or `None`
when every channel of every pixel is zero. -/
def Image.getbbox (im : Image) : Option (Nat × Nat × Nat × Nat) :=
  bboxOf (im.coords.filter (pxNonzero im))

/-- PIL `image.crop((left, upper, right, lower))`: size
`(right - left, lower - upper)`, pixels translated by `(left, upper)`,
zero-filled outside the source (never reached for a `getbbox` box). -/
def Image.crop (im : Image) : Nat × Nat × Nat × Nat → Image
  | (l, u, r, lo) =>
    { mode := im.mode, width := r - l, height := lo - u,
      px := fun x y =>
        if l + x < im.width ∧ u + y < im.height then im.px (l + x) (u + y)
        else (im.px 0 0).map (fun _ => 0) }

/-- The line `bg = Image.new(im.mode, im.size, im.getpixel((0,0)))`: the uniform
background reference built by `trim`. -/
def bgImage (im : Image) : Image :=
  Image.new im.mode (im.width, im.height) (im.px 0 0)

/-- The line `diff = ImageChops.difference(im, bg)` inside `trim`. -/
def trimDiff (im : Image) : Image := difference im (bgImage im)

/-- The line `diff = ImageChops.add(diff, diff, 2.0, -100)` inside `trim`. -/
def trimAmplified (im : Image) : Image := chopsAddSelf2 (trimDiff im) (-100)

/-- The function `trim(im)`: crop to the bounding box of the amplified difference when one
exists; otherwise fall off the function, returning Python `None`
(embedded as `Option.none`). -/
def trim (im : Image) : Option Image :=
  match (trimAmplified im).getbbox with
  | some bbox => some (im.crop bbox)
  | none => none

/-- Whether some channel of the pixel at `p` differs from the corner color
by more than 100: the pixels that survive the amplification threshold. -/
def exceedsBg (im : Image) (p : Nat × Nat) : Bool :=
  (List.zipWith (fun a b => max a b - min a b) (im.px p.1 p.2) (im.px 0 0)).any
    (fun d => 100 < d)

/-- The bounding box of the pixels differing from the corner color by more
than 100 in some channel: the box `trim` actually crops to. -/
def thresholdBBox (im : Image) : Option (Nat × Nat × Nat × Nat) :=
  bboxOf (im.coords.filter (exceedsBg im))

/-- The line `background = Image.new("RGB", image.size, (255, 255, 255))` in
`deborder_and_save`: the mode is the hardcoded string `"RGB"`, not the
trimmed image's mode. -/
def mkBackground (image : Image) : Image :=
  Image.new .RGB (image.width, image.height) [255, 255, 255]

/-- The band `image.split()[3]`: band 3 as a mode-"L" image. -/
def Image.band3 (im : Image) : Image :=
  { mode := .L, width := im.width, height := im.height,
    px := fun x y => [(im.px x y).getD 3 0] }

/-- The call `background.paste(image, mask=mask)` with an "L"-mode mask: the result
keeps the background's mode and size; each channel is blended
`(bg*(255-m) + src*m) / 255` (PIL's fixed-point rounding of the blend is
immaterial here: no claim concerns blended channel values). -/
def Image.paste (bg src mask : Image) : Image :=
  { bg with px := fun x y =>
      List.zipWith (fun d s => (d * (255 - (mask.px x y).getD 0 0) +
        s * (mask.px x y).getD 0 0) / 255) (bg.px x y) (src.px x y) }

/-- The body of `deborder_and_save` after `Image.open`, up to the composite that gets
saved.  Python exceptions are embedded as `Except.error`: `trim` returning
`None` makes the unconditional `image.load()` raise `AttributeError`, and
`image.split()[3]` raises `IndexError` for an image with fewer than 4
bands. -/
def deborder (im : Image) : Except String Image :=
  match trim im with
  | none => .error ("AttributeError: NoneType object has no attribute load")
  | some image =>
    if 4 ≤ image.mode.bands then
      .ok ((mkBackground image).paste image image.band3)
    else .error ("IndexError: tuple index out of range")

/-- Every channel of every in-range pixel is an 8-bit value: what PIL
guarantees for a loaded image. -/
abbrev Image.Valid (im : Image) : Prop :=
  ∀ x, x < im.width → ∀ y, y < im.height → ∀ c ∈ im.px x y, c ≤ 255

/-! ## Output naming -/

/-- Python `s.split(sep)` for a one-character separator. -/
def pySplit (sep : Char) : List Char → List (List Char)
  | [] => [[]]
  | c :: cs =>
    match pySplit sep cs with
    | [] => [[]]
    | r :: rs => if c = sep then [] :: r :: rs else (c :: r) :: rs

/-- The expression `filename.split('/')[-1]`: the basename. `pySplit` never returns an
empty list, so the default of `getLastD` is never used. -/
def pyBasename (f : Filename) : Filename := (pySplit '/' f).getLastD []

/-- The expression `filename.split('/')[-1][:-3] + "jpg"`: the name the composite is saved
under inside the split output directory. -/
def outName (f : Filename) : Filename :=
  (pyBasename f).take ((pyBasename f).length - 3) ++ "jpg".data

/-! ## Concrete inputs for witnesses and counterexamples -/

/-- A 2×2 RGBA image in which every pixel equals the (0,0) pixel. -/
def uniformImage : Image :=
  { mode := .RGBA, width := 2, height := 2, px := fun _ _ => [10, 20, 30, 255] }

/-- A 2×1 RGBA image: second pixel differs from the corner by 50 per channel — a
real difference, but below the amplification threshold. -/
def faintImage : Image :=
  { mode := .RGBA, width := 2, height := 1,
    px := fun x _ => if x = 0 then [0, 0, 0, 255] else [50, 50, 50, 255] }

/-- A 2×1 RGBA image: second pixel differs strongly from the corner. -/
def rgbaImage : Image :=
  { mode := .RGBA, width := 2, height := 1,
    px := fun x _ => if x = 0 then [0, 0, 0, 255] else [200, 200, 200, 255] }

/-- A 3×1 RGBA image: the middle pixel differs strongly from the corner. -/
def contentImage : Image :=
  { mode := .RGBA, width := 3, height := 1,
    px := fun x _ => if x = 1 then [255, 255, 255, 255] else [0, 0, 0, 255] }

/-! ## The shuffle is a permutation -/

theorem cons_set_perm : ∀ (xs : List α) (m : Nat) (x b : α),
    xs[m]? = some b → (b :: xs.set m x).Perm (x :: xs)
  | [], m, _, _, h => by simp at h
  | y :: t, 0, x, b, h => by
    simp only [List.getElem?_cons_zero, Option.some.injEq] at h
    subst h
    simpa using List.Perm.swap x y t
  | y :: t, m + 1, x, b, h => by
    simp only [List.getElem?_cons_succ] at h
    show (b :: y :: t.set m x).Perm (x :: y :: t)
    exact (List.Perm.swap y b _).trans
      (((cons_set_perm t m x b h).cons y).trans (List.Perm.swap x y t))

theorem set_set_perm : ∀ (l : List α) (i j : Nat) (a b : α),
    l[i]? = some a → l[j]? = some b → ((l.set i b).set j a).Perm l
  | [], _, _, _, _, h, _ => by simp at h
  | x :: t, 0, 0, a, b, h1, h2 => by
    simp only [List.getElem?_cons_zero, Option.some.injEq] at h1 h2
    subst h1
    simp
  | x :: t, 0, j + 1, a, b, h1, h2 => by
    simp only [List.getElem?_cons_zero, Option.some.injEq] at h1
    simp only [List.getElem?_cons_succ] at h2
    subst h1
    show (b :: t.set j x).Perm (x :: t)
    exact cons_set_perm t j x b h2
  | x :: t, i + 1, 0, a, b, h1, h2 => by
    simp only [List.getElem?_cons_succ] at h1
    simp only [List.getElem?_cons_zero, Option.some.injEq] at h2
    subst h2
    show (a :: t.set i x).Perm (x :: t)
    exact cons_set_perm t i x a h1
  | x :: t, i + 1, j + 1, a, b, h1, h2 => by
    simp only [List.getElem?_cons_succ] at h1 h2
    show (x :: (t.set i b).set j a).Perm (x :: t)
    exact (set_set_perm t i j a b h1 h2).cons x

theorem swapAt_perm (l : List α) (i j : Nat) : (swapAt l i j).Perm l := by
  unfold swapAt
  split
  · next a b h1 h2 => exact set_set_perm l i j a b h1 h2
  · exact List.Perm.refl l

theorem shuffleAux_perm (next : Nat → σ → Nat × σ) :
    ∀ (i : Nat) (st : σ) (l : List α), (shuffleAux next i st l).Perm l
  | 0, _, _ => List.Perm.refl _
  | i + 1, _st, l =>
    ((shuffleAux_perm next i _ _).trans (swapAt_perm l (i + 1) _))

theorem pyShuffle_perm (next : Nat → σ → Nat × σ) (st : σ) (l : List α) :
    (pyShuffle next st l).Perm l :=
  shuffleAux_perm next _ st l

theorem pySort_perm (l : List Filename) : (pySort l).Perm l :=
  List.perm_insertionSort _ l

/-- The list the script slices is a permutation of the input png paths. -/
theorem shuffled_perm (next : Nat → σ → Nat × σ) (st : σ) (dataDir : Filename)
    (listing : List Filename) :
    (pyShuffle next st (pySort (pngPaths dataDir listing))).Perm
      (pngPaths dataDir listing) :=
  (pyShuffle_perm next st _).trans (pySort_perm _)

/-- Slicing at `s1 ≤ s2` decomposes a list into the three contiguous parts
`[:s1]`, `[s1:s2]`, `[s2:]`. -/
theorem take_drop_decomp (l : List α) (s1 s2 : Nat) (h : s1 ≤ s2) :
    l.take s1 ++ ((l.drop s1).take (s2 - s1) ++ l.drop s2) = l := by
  have h2 : (l.drop s1).drop (s2 - s1) = l.drop s2 := by
    rw [List.drop_drop]
    congr 1
    omega
  conv_rhs => rw [← List.take_append_drop s1 l,
    ← List.take_append_drop (s2 - s1) (l.drop s1)]
  rw [h2]

/-- Claim C1: For every list of `N` input filenames, the split computed by the
top-level script has sizes `len(train) = ⌊0.8N⌋`, `len(dev) = ⌊0.9N⌋ - ⌊0.8N⌋`,
`len(test) = N - ⌊0.9N⌋`, and the three sizes sum to `N`. -/
theorem split_sizes {σ : Type} (next : Nat → σ → Nat × σ) (st : σ)
    (dataDir : Filename) (listing : List Filename) :
    (buildSplit next st dataDir listing).1.length
        = 8 * (pngPaths dataDir listing).length / 10 ∧
    (buildSplit next st dataDir listing).2.1.length
        = 9 * (pngPaths dataDir listing).length / 10
          - 8 * (pngPaths dataDir listing).length / 10 ∧
    (buildSplit next st dataDir listing).2.2.length
        = (pngPaths dataDir listing).length
          - 9 * (pngPaths dataDir listing).length / 10 ∧
    (buildSplit next st dataDir listing).1.length
        + (buildSplit next st dataDir listing).2.1.length
        + (buildSplit next st dataDir listing).2.2.length
        = (pngPaths dataDir listing).length := by
  have hlen := (shuffled_perm next st dataDir listing).length_eq
  simp only [buildSplit, List.length_take, List.length_drop, hlen, true_and,
    and_true]
  omega

/-- Claim C2: For every duplicate-free list of input filenames, the three split
lists are pairwise disjoint and their concatenation is a permutation of the
input list: every input filename belongs to exactly one split. -/
theorem split_partition {σ : Type} (next : Nat → σ → Nat × σ) (st : σ)
    (dataDir : Filename) (listing : List Filename)
    (h : (pngPaths dataDir listing).Nodup) :
    ((buildSplit next st dataDir listing).1 ++
        ((buildSplit next st dataDir listing).2.1 ++
          (buildSplit next st dataDir listing).2.2)).Perm
      (pngPaths dataDir listing) ∧
    (buildSplit next st dataDir listing).1.Disjoint
      (buildSplit next st dataDir listing).2.1 ∧
    (buildSplit next st dataDir listing).1.Disjoint
      (buildSplit next st dataDir listing).2.2 ∧
    (buildSplit next st dataDir listing).2.1.Disjoint
      (buildSplit next st dataDir listing).2.2 := by
  have hperm := shuffled_perm next st dataDir listing
  have hdec : (buildSplit next st dataDir listing).1 ++
      ((buildSplit next st dataDir listing).2.1 ++
        (buildSplit next st dataDir listing).2.2)
      = pyShuffle next st (pySort (pngPaths dataDir listing)) := by
    unfold buildSplit
    exact take_drop_decomp _ _ _ (by omega)
  have hnodup : ((buildSplit next st dataDir listing).1 ++
      ((buildSplit next st dataDir listing).2.1 ++
        (buildSplit next st dataDir listing).2.2)).Nodup := by
    rw [hdec]
    exact hperm.symm.nodup h
  rw [List.nodup_append, List.nodup_append, List.disjoint_append_right] at hnodup
  exact ⟨hdec ▸ hperm, hnodup.2.2.1, hnodup.2.2.2, hnodup.2.1.2.2⟩

/-- Witness for C2 at a concrete directory listing and RNG. -/
theorem split_partition_witness :
    (pngPaths "d".data ["b.png".data, "a.png".data, "x.txt".data]).Nodup ∧
    ((buildSplit demoNext 1 "d".data
          ["b.png".data, "a.png".data, "x.txt".data]).1 ++
        ((buildSplit demoNext 1 "d".data
            ["b.png".data, "a.png".data, "x.txt".data]).2.1 ++
          (buildSplit demoNext 1 "d".data
            ["b.png".data, "a.png".data, "x.txt".data]).2.2)).Perm
      (pngPaths "d".data ["b.png".data, "a.png".data, "x.txt".data]) ∧
    (buildSplit demoNext 1 "d".data
        ["b.png".data, "a.png".data, "x.txt".data]).1.Disjoint
      (buildSplit demoNext 1 "d".data
        ["b.png".data, "a.png".data, "x.txt".data]).2.1 ∧
    (buildSplit demoNext 1 "d".data
        ["b.png".data, "a.png".data, "x.txt".data]).1.Disjoint
      (buildSplit demoNext 1 "d".data
        ["b.png".data, "a.png".data, "x.txt".data]).2.2 ∧
    (buildSplit demoNext 1 "d".data
        ["b.png".data, "a.png".data, "x.txt".data]).2.1.Disjoint
      (buildSplit demoNext 1 "d".data
        ["b.png".data, "a.png".data, "x.txt".data]).2.2 :=
  ⟨by decide, split_partition demoNext 1 "d".data
    ["b.png".data, "a.png".data, "x.txt".data] (by decide)⟩

/-- Two directory listings with the same files yield the same sorted png
paths: the lexicographic sort cancels the enumeration order. -/
theorem pySort_pngPaths_congr (dataDir : Filename) {l1 l2 : List Filename}
    (h : l1.Perm l2) :
    pySort (pngPaths dataDir l1) = pySort (pngPaths dataDir l2) :=
  List.eq_of_perm_of_sorted
    ((pySort_perm _).trans (((h.filter _).map _).trans (pySort_perm _).symm))
    (List.sorted_insertionSort _ _) (List.sorted_insertionSort _ _)

/-- The whole split is invariant under reordering the directory listing. -/
theorem buildSplit_perm_congr {σ : Type} (next : Nat → σ → Nat × σ) (st : σ)
    (dataDir : Filename) {l1 l2 : List Filename} (h : l1.Perm l2) :
    buildSplit next st dataDir l1 = buildSplit next st dataDir l2 := by
  unfold buildSplit
  rw [pySort_pngPaths_congr dataDir h]

/-- Claim C3: For a fixed seed (RNG) and a fixed multiset of input filenames,
two runs of the splitter produce identical partitions: the split is a
deterministic function of the seed and the input file set. -/
theorem split_deterministic {σ : Type} (next : Nat → σ → Nat × σ) (st : σ)
    (dataDir : Filename) {l1 l2 : List Filename} (h : l1.Perm l2) :
    buildSplit next st dataDir l1 = buildSplit next st dataDir l2 :=
  buildSplit_perm_congr next st dataDir h

/-- Witness for C3: two enumerations of the same two files give equal splits. -/
theorem split_deterministic_witness :
    (["b.png".data, "a.png".data] : List Filename).Perm
      ["a.png".data, "b.png".data] ∧
    buildSplit demoNext 7 "d".data ["b.png".data, "a.png".data]
      = buildSplit demoNext 7 "d".data ["a.png".data, "b.png".data] :=
  ⟨by decide, split_deterministic demoNext 7 "d".data (by decide)⟩

/-- Claim C9: The train/dev/test assignment of every file depends only on the
set of filenames in the directory (and the RNG), not on the order in which
the directory listing enumerates them. -/
theorem split_assignment_order_independent {σ : Type} (next : Nat → σ → Nat × σ)
    (st : σ) (dataDir : Filename) {l1 l2 : List Filename} (h : l1.Perm l2) :
    ∀ f, splitAssignment next st dataDir l1 f = splitAssignment next st dataDir l2 f := by
  intro f
  unfold splitAssignment
  rw [buildSplit_perm_congr next st dataDir h]

/-! ## Border trimmer -/

/-- Claim C4 (code bug): On an all-background image the bounding-box step of
`trim` yields no box and `trim` returns `None`; `deborder_and_save` then
calls `.load()` unconditionally on that `None` and crashes with
`AttributeError` instead of treating it as "no crop". -/
theorem uniform_image_crash :
    (∀ x, x < uniformImage.width → ∀ y, y < uniformImage.height →
        uniformImage.px x y = uniformImage.px 0 0) ∧
    trim uniformImage = none ∧
    deborder uniformImage
      = Except.error ("AttributeError: NoneType object has no attribute load") :=
  ⟨by decide, rfl, rfl⟩

theorem mem_coords {im : Image} {p : Nat × Nat} :
    p ∈ im.coords ↔ p.1 < im.width ∧ p.2 < im.height := by
  cases p with
  | mk x y =>
    simp only [Image.coords, List.mem_flatMap, List.mem_map, List.mem_range,
      Prod.mk.injEq]
    constructor
    · rintro ⟨y', hy', x', hx', hx, hy⟩
      subst hx; subst hy
      exact ⟨hx', hy'⟩
    · rintro ⟨hx, hy⟩
      exact ⟨y, hy, x, hx, rfl, rfl⟩

theorem foldr_min_le (l : List Nat) (a : Nat) : l.foldr min a ≤ a := by
  induction l with
  | nil => exact Nat.le_refl a
  | cons x t ih => exact le_trans (min_le_right x _) ih

theorem foldr_max_lt {w : Nat} :
    ∀ (l : List Nat) (a : Nat), a < w → (∀ x ∈ l, x < w) → l.foldr max a < w
  | [], a, ha, _ => ha
  | x :: t, a, ha, h => by
    simp only [List.foldr]
    exact max_lt (h x (by simp))
      (foldr_max_lt t a ha fun z hz => h z (by simp [hz]))

/-- A bounding box of coordinates inside a `w × h` rectangle has its
exclusive corner inside `(w, h)`. -/
theorem bboxOf_bounds {w h : Nat} :
    ∀ (ps : List (Nat × Nat)) (l u r b : Nat),
      (∀ p ∈ ps, p.1 < w ∧ p.2 < h) → bboxOf ps = some (l, u, r, b) →
      r ≤ w ∧ b ≤ h
  | [], _, _, _, _, _, hb => by cases hb
  | p :: ps, l, u, r, b, hmem, hb => by
    simp only [bboxOf, Option.some.injEq, Prod.mk.injEq] at hb
    obtain ⟨-, -, hr, hb2⟩ := hb
    have h1 : (ps.map Prod.fst).foldr max p.1 < w :=
      foldr_max_lt _ _ (hmem p (by simp)).1 (by
        intro z hz
        simp only [List.mem_map] at hz
        obtain ⟨q, hq, rfl⟩ := hz
        exact (hmem q (by simp [hq])).1)
    have h2 : (ps.map Prod.snd).foldr max p.2 < h :=
      foldr_max_lt _ _ (hmem p (by simp)).2 (by
        intro z hz
        simp only [List.mem_map] at hz
        obtain ⟨q, hq, rfl⟩ := hz
        exact (hmem q (by simp [hq])).2)
    omega

/-- Claim C10: Whenever `trim` returns an image, that image is no wider and no
taller than the input: the crop box lies within the input's bounds. -/
theorem trim_shrinks (im im' : Image) (h : trim im = some im') :
    im'.width ≤ im.width ∧ im'.height ≤ im.height := by
  unfold trim at h
  cases hb : (trimAmplified im).getbbox with
  | none => rw [hb] at h; cases h
  | some bbox =>
    rw [hb] at h
    obtain ⟨l, u, r, b⟩ := bbox
    have hrb : r ≤ (trimAmplified im).width ∧ b ≤ (trimAmplified im).height := by
      apply bboxOf_bounds _ l u r b _ hb
      intro p hp
      exact mem_coords.1 (List.mem_of_mem_filter hp)
    have hw : (trimAmplified im).width = im.width := rfl
    have hh : (trimAmplified im).height = im.height := rfl
    cases h
    simp only [Image.crop]
    omega

/-- An amplified channel is non-zero exactly when the raw difference
exceeds 100. -/
theorem amp_ne_zero (c : Nat) :
    (clip8 (((c + c : Nat) : Int) / 2 + (-100)) != 0) = decide (100 < c) := by
  have h2 : ((c + c : Nat) : Int) / 2 = c := by omega
  rw [h2, Bool.eq_iff_iff]
  simp only [clip8, bne_iff_ne, ne_eq, decide_eq_true_eq]
  omega

theorem pxNonzero_amplified (im : Image) (p : Nat × Nat) :
    pxNonzero (trimAmplified im) p = exceedsBg im p := by
  simp only [pxNonzero, trimAmplified, chopsAddSelf2, trimDiff, difference,
    bgImage, Image.new, exceedsBg, List.any_map]
  congr 1
  funext c
  simpa using amp_ne_zero c

/-- Claim C5 (amended): the function `trim` crops exactly to the bounding box of the pixels
some channel of which differs from the corner color by more than 100 (the
amplification zeroes smaller differences), and returns `none` — not the
unchanged image — when no such pixel exists. -/
theorem trim_eq_threshold_crop (im : Image) :
    trim im = Option.map im.crop (thresholdBBox im) := by
  have hco : (trimAmplified im).coords = im.coords := rfl
  unfold trim Image.getbbox thresholdBBox
  rw [hco, List.filter_congr (fun p _ => pxNonzero_amplified im p)]
  cases bboxOf (im.coords.filter (exceedsBg im)) <;> rfl

/-- Claim C5 counterexample: the second pixel of `faintImage` differs from the
corner color, yet `trim` returns `none`: neither the crop to that pixel's
bounding box nor the unchanged image that the claim requires. -/
theorem trim_spec_counterexample :
    faintImage.px 1 0 ≠ faintImage.px 0 0 ∧ trim faintImage = none :=
  ⟨by decide, rfl⟩

theorem amp_eq_sub (d : Nat) (hd : d ≤ 255) :
    clip8 (((d + d : Nat) : Int) / 2 + (-100)) = d - 100 := by
  simp only [clip8]
  omega

theorem zip_absdiff_le :
    ∀ l1 l2 : List Nat, (∀ c ∈ l1, c ≤ 255) → (∀ c ∈ l2, c ≤ 255) →
      ∀ c ∈ List.zipWith (fun a b => max a b - min a b) l1 l2, c ≤ 255
  | [], _, _, _ => by simp
  | _ :: _, [], _, _ => by simp
  | a :: t1, b :: t2, h1, h2 => by
    simp only [List.zipWith_cons_cons, List.mem_cons]
    rintro c (rfl | hc)
    · have ha := h1 a (by simp)
      have hb := h2 b (by simp)
      omega
    · exact zip_absdiff_le t1 t2 (fun z hz => h1 z (by simp [hz]))
        (fun z hz => h2 z (by simp [hz])) c hc

theorem getD_map_sub :
    ∀ (l : List Nat) (i : Nat),
      (l.map (fun d => d - 100)).getD i 0 = l.getD i 0 - 100
  | [], _ => rfl
  | _ :: _, 0 => rfl
  | _ :: t, i + 1 => getD_map_sub t i

/-- Claim C8: In `trim`, every channel of the amplified difference equals the
claimed `(d + d)/2.0 - 100` clamped to the pixel range — truncated
subtraction `d - 100` — so every channel whose difference from the
background is at most 100 is driven to zero. -/
theorem amplified_channels (im : Image) (hv : im.Valid) (hw : 0 < im.width)
    (hh : 0 < im.height) (x y : Nat) (hx : x < im.width) (hy : y < im.height) :
    (trimAmplified im).px x y = ((trimDiff im).px x y).map (fun d => d - 100) ∧
    ∀ i, ((trimDiff im).px x y).getD i 0 ≤ 100 →
      ((trimAmplified im).px x y).getD i 0 = 0 := by
  have hb : ∀ c ∈ (trimDiff im).px x y, c ≤ 255 := by
    simp only [trimDiff, difference, bgImage, Image.new]
    exact zip_absdiff_le _ _ (hv x hx y hy) (hv 0 hw 0 hh)
  have h1 : (trimAmplified im).px x y
      = ((trimDiff im).px x y).map (fun d => d - 100) := by
    simp only [trimAmplified, chopsAddSelf2]
    exact List.map_congr_left (fun d hd => amp_eq_sub d (hb d hd))
  refine ⟨h1, fun i hi => ?_⟩
  rw [h1, getD_map_sub]
  omega

/-- Witness for C8 at `faintImage`, whose differences all lie below the
threshold. -/
theorem amplified_channels_witness :
    faintImage.Valid ∧ 0 < faintImage.width ∧ 0 < faintImage.height ∧
    1 < faintImage.width ∧ 0 < faintImage.height ∧
    ((trimAmplified faintImage).px 1 0
        = ((trimDiff faintImage).px 1 0).map (fun d => d - 100) ∧
      ∀ i, ((trimDiff faintImage).px 1 0).getD i 0 ≤ 100 →
        ((trimAmplified faintImage).px 1 0).getD i 0 = 0) :=
  ⟨by decide, by decide, by decide, by decide, by decide,
    amplified_channels faintImage (by decide) (by decide) (by decide) 1 0
      (by decide) (by decide)⟩

/-- Claim C6 counterexample: For the RGBA input `rgbaImage` the white
background is created with hardcoded mode RGB while the trimmed image has
mode RGBA: the background does not match the trimmed image's mode. -/
theorem background_mode_counterexample :
    trim rgbaImage = some (rgbaImage.crop (1, 0, 2, 1)) ∧
    (rgbaImage.crop (1, 0, 2, 1)).mode = Mode.RGBA ∧
    (mkBackground (rgbaImage.crop (1, 0, 2, 1))).mode = Mode.RGB ∧
    (mkBackground (rgbaImage.crop (1, 0, 2, 1))).mode
      ≠ (rgbaImage.crop (1, 0, 2, 1)).mode :=
  ⟨rfl, rfl, rfl, by decide⟩

/-- Claim C6 (amended): The background matches the trimmed image's size, but
its mode is always RGB (as is the saved composite's) — it matches the
trimmed image's mode only when that mode is RGB. -/
theorem background_size_and_mode (im t out : Image) (h : trim im = some t)
    (hd : deborder im = Except.ok out) :
    (mkBackground t).width = t.width ∧ (mkBackground t).height = t.height ∧
    (mkBackground t).mode = Mode.RGB ∧ out.mode = Mode.RGB ∧
    out.width = t.width ∧ out.height = t.height := by
  have hd2 : (if 4 ≤ t.mode.bands
      then Except.ok ((mkBackground t).paste t t.band3)
      else (Except.error ("IndexError: tuple index out of range") : Except String Image))
      = Except.ok out := by
    rw [← hd]
    unfold deborder
    rw [h]
  by_cases hbands : 4 ≤ t.mode.bands
  · rw [if_pos hbands] at hd2
    cases hd2
    exact ⟨rfl, rfl, rfl, rfl, rfl, rfl⟩
  · rw [if_neg hbands] at hd2
    cases hd2

/-- Witness for C6 at `rgbaImage`. -/
theorem background_size_and_mode_witness :
    trim rgbaImage = some (rgbaImage.crop (1, 0, 2, 1)) ∧
    deborder rgbaImage
      = Except.ok ((mkBackground (rgbaImage.crop (1, 0, 2, 1))).paste
          (rgbaImage.crop (1, 0, 2, 1)) (rgbaImage.crop (1, 0, 2, 1)).band3) ∧
    ((mkBackground (rgbaImage.crop (1, 0, 2, 1))).width
        = (rgbaImage.crop (1, 0, 2, 1)).width ∧
      (mkBackground (rgbaImage.crop (1, 0, 2, 1))).height
        = (rgbaImage.crop (1, 0, 2, 1)).height ∧
      (mkBackground (rgbaImage.crop (1, 0, 2, 1))).mode = Mode.RGB ∧
      ((mkBackground (rgbaImage.crop (1, 0, 2, 1))).paste
          (rgbaImage.crop (1, 0, 2, 1)) (rgbaImage.crop (1, 0, 2, 1)).band3).mode
        = Mode.RGB ∧
      ((mkBackground (rgbaImage.crop (1, 0, 2, 1))).paste
          (rgbaImage.crop (1, 0, 2, 1)) (rgbaImage.crop (1, 0, 2, 1)).band3).width
        = (rgbaImage.crop (1, 0, 2, 1)).width ∧
      ((mkBackground (rgbaImage.crop (1, 0, 2, 1))).paste
          (rgbaImage.crop (1, 0, 2, 1)) (rgbaImage.crop (1, 0, 2, 1)).band3).height
        = (rgbaImage.crop (1, 0, 2, 1)).height) :=
  ⟨rfl, rfl, background_size_and_mode rgbaImage (rgbaImage.crop (1, 0, 2, 1))
    ((mkBackground (rgbaImage.crop (1, 0, 2, 1))).paste
      (rgbaImage.crop (1, 0, 2, 1)) (rgbaImage.crop (1, 0, 2, 1)).band3) rfl rfl⟩

/-! ## Output naming -/

theorem pySplit_ne_nil (sep : Char) : ∀ l : List Char, pySplit sep l ≠ []
  | [] => by simp [pySplit]
  | c :: cs => by
    simp only [pySplit]
    cases h : pySplit sep cs with
    | nil => simp
    | cons r rs => by_cases hc : c = sep <;> simp [hc]

theorem pySplit_append (sep : Char) :
    ∀ xs ys : List Char,
      pySplit sep (xs ++ sep :: ys) = pySplit sep xs ++ pySplit sep ys
  | [], ys => by
    simp only [List.nil_append]
    show (match pySplit sep ys with
      | [] => [[]]
      | r :: rs => if sep = sep then [] :: r :: rs else (sep :: r) :: rs)
      = pySplit sep [] ++ pySplit sep ys
    cases h : pySplit sep ys with
    | nil => exact absurd h (pySplit_ne_nil sep ys)
    | cons r rs => simp [pySplit]
  | x :: xs, ys => by
    rw [List.cons_append]
    show (match pySplit sep (xs ++ sep :: ys) with
      | [] => [[]]
      | r :: rs => if x = sep then [] :: r :: rs else (x :: r) :: rs)
      = pySplit sep (x :: xs) ++ pySplit sep ys
    rw [pySplit_append sep xs ys]
    cases hx : pySplit sep xs with
    | nil => exact absurd hx (pySplit_ne_nil sep xs)
    | cons r rs =>
      show (match r :: (rs ++ pySplit sep ys) with
        | [] => [[]]
        | r :: rs => if x = sep then [] :: r :: rs else (x :: r) :: rs)
        = pySplit sep (x :: xs) ++ pySplit sep ys
      simp only [pySplit, hx]
      split <;> simp

theorem pySplit_no_sep (sep : Char) :
    ∀ l : List Char, sep ∉ l → pySplit sep l = [l]
  | [], _ => rfl
  | c :: cs, h => by
    have hc : c ≠ sep := fun e => h (by simp [e])
    have ih := pySplit_no_sep sep cs (fun m => h (by simp [m]))
    simp only [pySplit, ih, if_neg hc]

theorem getLastD_append_right (l2 : List α) (h : l2 ≠ []) :
    ∀ (l1 : List α) (d : α), (l1 ++ l2).getLastD d = l2.getLastD d
  | [], _ => rfl
  | x :: t, d => by
    rw [List.cons_append, List.getLastD_cons, getLastD_append_right l2 h t x]
    cases l2 with
    | nil => exact absurd rfl h
    | cons a l => rfl

/-- The basename of a joined path is the basename of the joined component. -/
theorem pyBasename_join (dataDir f : Filename) :
    pyBasename (pathJoin dataDir f) = pyBasename f := by
  unfold pyBasename pathJoin
  rw [pySplit_append, getLastD_append_right _ (pySplit_ne_nil '/' f)]

/-- Claim C7: The saved output name is the input's basename with its last 3
characters removed and "jpg" appended; in particular every `.png` input
inside `data_dir` is saved under the same stem with a `.jpg` extension. -/
theorem out_name_png :
    (∀ f : Filename,
      outName f = (pyBasename f).take ((pyBasename f).length - 3) ++ "jpg".data) ∧
    ∀ dataDir stem : Filename, '/' ∉ stem →
      outName (pathJoin dataDir (stem ++ ".png".data)) = stem ++ ".jpg".data := by
  refine ⟨fun _ => rfl, fun dataDir stem h => ?_⟩
  have hb : pyBasename (pathJoin dataDir (stem ++ ".png".data))
      = stem ++ ".png".data := by
    rw [pyBasename_join]
    unfold pyBasename
    rw [pySplit_no_sep '/' _ (by
      simp only [List.mem_append]
      rintro (hc | hc)
      · exact h hc
      · revert hc
        decide)]
    rfl
  unfold outName
  rw [hb]
  have hlen : (stem ++ ".png".data).length - 3 = stem.length + 1 := by
    simp only [List.length_append]
    show stem.length + 4 - 3 = stem.length + 1
    omega
  rw [hlen, List.take_append_eq_append_take,
    List.take_of_length_le (by omega : stem.length ≤ stem.length + 1)]
  have ht : (".png".data).take (stem.length + 1 - stem.length) = ['.'] := by
    have : stem.length + 1 - stem.length = 1 := by omega
    rw [this]
    rfl
  rw [ht, List.append_assoc]
  rfl

/-- Witness for C7 at the filename `data/img0.png`. -/
theorem out_name_png_witness :
    ('/' ∉ "img0".data) ∧
    outName (pathJoin "data".data ("img0".data ++ ".png".data))
      = "img0".data ++ ".jpg".data :=
  ⟨by decide, out_name_png.2 "data".data "img0".data (by decide)⟩

/-- Witness for C10: a concrete image on which `trim` crops. -/
theorem trim_shrinks_witness :
    trim contentImage = some (contentImage.crop (1, 0, 2, 1)) ∧
    (contentImage.crop (1, 0, 2, 1)).width ≤ contentImage.width ∧
    (contentImage.crop (1, 0, 2, 1)).height ≤ contentImage.height :=
  ⟨rfl, trim_shrinks contentImage (contentImage.crop (1, 0, 2, 1)) rfl⟩

/-- Witness for C9 at a concrete pair of listings and a concrete file. -/
theorem split_assignment_order_independent_witness :
    (["b.png".data, "a.png".data, "c.png".data] : List Filename).Perm
      ["c.png".data, "a.png".data, "b.png".data] ∧
    splitAssignment demoNext 3 "d".data
        ["b.png".data, "a.png".data, "c.png".data] "d/a.png".data
      = splitAssignment demoNext 3 "d".data
        ["c.png".data, "a.png".data, "b.png".data] "d/a.png".data :=
  ⟨by decide, split_assignment_order_independent demoNext 3 "d".data
    (by decide) "d/a.png".data⟩

end BuildDataset
